import Mathlib

/-!
Verification of the mlserve registry / serving layer.

Shallow embedding of:
* `src/src/services/ray_serve.py` — `ModelRegistry` (register_model, get_model,
  list_models, predict) and the per-item preprocessing of `ResNetModel.__call__`;
* `src/src/api/endpoints/inference.py` — the `/predict` error mapping and
  `/ray/status`;
* `src/src/config/ray_config.py` — the pydantic field constraints of
  `AutoscalingConfig` and `DeploymentConfig`.

Handles, metadata records and request/response payloads are opaque to the
registry (it only stores and forwards them), so they are embedded as `Nat`.
Python `dict` state is embedded as an insertion-ordered association list with
in-place update, matching CPython dict semantics (assignment to an existing key
keeps its position; a new key is appended; iteration follows insertion order).
-/

namespace MLServe

abbrev Handle := Nat
abbrev Info := Nat
abbrev Req := Nat
abbrev Resp := Nat

/-- Python dict assignment `d[k] = v` on an insertion-ordered association list:
an existing key is updated in place, a new key is appended at the end. -/
def dictSet (l : List (String × α)) (k : String) (v : α) : List (String × α) :=
  if l.any (fun p => p.1 = k) then
    l.map (fun p => if p.1 = k then (k, v) else p)
  else l ++ [(k, v)]

/-- Python `d.get(k)`: the value stored at `k`, `none` when absent. -/
def dictGet (l : List (String × α)) (k : String) : Option α :=
  (l.find? (fun p => p.1 = k)).map (fun p => p.2)

/-- State of `ModelRegistry` (`src/src/services/ray_serve.py` lines 123-127):
`self.models` maps a name to its deployment handle, `self.model_info` maps the
same name to its static metadata. -/
structure RegState where
  models : List (String × Handle)
  model_info : List (String × Info)
deriving DecidableEq

/-- `ModelRegistry.__init__`: both tables start empty. -/
def initState : RegState := ⟨[], []⟩

/-- `ModelRegistry.register_model` (lines 129-133): unconditionally assigns
`self.models[name] = model_handle` and `self.model_info[name] = info`.
There is no duplicate check and no error path: the method is total. -/
def register_model (s : RegState) (name : String) (handle : Handle) (info : Info) :
    RegState :=
  { models := dictSet s.models name handle,
    model_info := dictSet s.model_info name info }

/-- `ModelRegistry.get_model` (lines 135-137): `self.models.get(name)`. -/
def get_model (s : RegState) (name : String) : Option Handle :=
  dictGet s.models name

/-- `ModelRegistry.list_models` (lines 139-147): one entry per item of
`self.model_info`, in dict iteration (= insertion) order, each carrying the
model name and its metadata. -/
def list_models (s : RegState) : List (String × Info) :=
  s.model_info.map (fun p => (p.1, p.2))

/-- Python exceptions crossing the registry boundary: `ValueError` (raised by
`predict` for an unknown model) versus anything else. -/
inductive PyErr where
  | valueError (msg : String)
  | other (msg : String)
deriving DecidableEq

/-- `ModelRegistry.predict` (lines 149-155): look the model up; when absent
raise `ValueError(f"Model {model_name} not found")`, otherwise invoke the
stored handle. The handle's behaviour is an external collaborator, passed in
as `handleFn`. -/
def predictReg (handleFn : Handle → Req → Except PyErr Resp) (s : RegState)
    (model_name : String) (request : Req) : Except PyErr Resp :=
  match get_model s model_name with
  | none => .error (.valueError ("Model " ++ model_name ++ " not found"))
  | some model => handleFn model request

/-- The four methods of `ModelRegistry`, as script actions. `ModelRegistry`
has no other method: in particular there is no deregister/remove method. -/
inductive RegistryCall where
  | register (name : String) (handle : Handle) (info : Info)
  | getModel (name : String)
  | listModels
  | predict (name : String) (request : Req)

/-- Effect of one registry call on the registry state: only `register_model`
mutates `self.models` / `self.model_info`; `get_model`, `list_models` and
`predict` only read them. -/
def applyCall (s : RegState) (c : RegistryCall) : RegState :=
  match c with
  | .register n h i => register_model s n h i
  | .getModel _ => s
  | .listModels => s
  | .predict _ _ => s

/-- Run a finite sequence of registry calls against a fresh registry. -/
def runScript (cs : List RegistryCall) : RegState :=
  cs.foldl applyCall initState

/-- The names currently registered, in insertion order (keys of
`self.model_info`). -/
def names (s : RegState) : List String :=
  s.model_info.map Prod.fst

/-- Does this call register the given name? -/
def registersName (c : RegistryCall) (n : String) : Prop :=
  match c with
  | .register m _ _ => m = n
  | _ => False

instance (c : RegistryCall) (n : String) : Decidable (registersName c n) := by
  unfold registersName
  cases c <;> infer_instance

/-- HTTP error as raised by FastAPI `HTTPException`. -/
structure HTTPError where
  status_code : Nat
  detail : String
deriving DecidableEq

/-- The `/predict` endpoint (`src/src/api/endpoints/inference.py` lines 48-76):
forwards to `ModelRegistry.predict`; a `ValueError` becomes HTTP 404 carrying
the exception message, any other exception becomes HTTP 500 with a generic
message; success wraps the predictions with the requested model name. -/
def predictEndpoint (handleFn : Handle → Req → Except PyErr Resp) (s : RegState)
    (model : String) (data : Req) : Except HTTPError (String × Resp) :=
  match predictReg handleFn s model data with
  | .ok r => .ok (model, r)
  | .error (.valueError m) => .error ⟨404, m⟩
  | .error (.other _) => .error ⟨500, "Internal server error during prediction"⟩

/-! ### Association-list (Python dict) lemmas -/

theorem dictSet_map_fst (l : List (String × α)) (k : String) (v : α) :
    (dictSet l k v).map Prod.fst =
      if l.any (fun p => p.1 = k) then l.map Prod.fst
      else l.map Prod.fst ++ [k] := by
  unfold dictSet
  split
  · rw [List.map_map]
    refine List.map_congr_left ?_
    intro p _
    by_cases hp : p.1 = k
    · simp [Function.comp, hp]
    · simp [Function.comp, hp]
  · simp

theorem mem_dictSet_map_fst (l : List (String × α)) (k : String) (v : α)
    (n : String) :
    n ∈ (dictSet l k v).map Prod.fst ↔ n ∈ l.map Prod.fst ∨ n = k := by
  rw [dictSet_map_fst]
  split
  · rename_i h
    rw [List.any_eq_true] at h
    obtain ⟨p, hp, hpk⟩ := h
    simp only [decide_eq_true_eq] at hpk
    constructor
    · exact fun hn => Or.inl hn
    · rintro (hn | rfl)
      · exact hn
      · exact List.mem_map.mpr ⟨p, hp, hpk⟩
  · simp

theorem find?_append_of_none (l₁ l₂ : List α) (p : α → Bool)
    (h : l₁.find? p = none) : (l₁ ++ l₂).find? p = l₂.find? p := by
  induction l₁ with
  | nil => simp
  | cons a t ih =>
    rw [List.find?_cons] at h
    by_cases ha : p a
    · simp [ha] at h
    · simp only [List.cons_append, List.find?_cons, ha]
      exact ih (by simpa [ha] using h)

theorem find?_update_self (l : List (String × α)) (k : String) (v : α)
    (h : l.any (fun p => p.1 = k) = true) :
    (l.map (fun p => if p.1 = k then (k, v) else p)).find?
      (fun p => decide (p.1 = k)) = some (k, v) := by
  induction l with
  | nil => simp at h
  | cons a t ih =>
    by_cases ha : a.1 = k
    · simp [List.find?_cons, ha]
    · simp only [List.any_cons, Bool.or_eq_true, decide_eq_true_eq, ha,
        false_or] at h
      rw [List.map_cons, if_neg ha, List.find?_cons_of_neg]
      · exact ih h
      · simpa using ha

theorem find?_update_other (l : List (String × α)) (k k' : String) (v : α)
    (hne : ¬ k = k') :
    (l.map (fun p => if p.1 = k then (k, v) else p)).find?
      (fun p => decide (p.1 = k')) = l.find? (fun p => decide (p.1 = k')) := by
  induction l with
  | nil => rfl
  | cons a t ih =>
    by_cases ha : a.1 = k
    · have ha' : ¬ a.1 = k' := fun hc => hne (ha ▸ hc)
      rw [List.map_cons, if_pos ha,
        List.find?_cons_of_neg _ (by simpa using hne),
        List.find?_cons_of_neg _ (by simpa using ha')]
      exact ih
    · rw [List.map_cons, if_neg ha]
      by_cases ha' : a.1 = k'
      · rw [List.find?_cons_of_pos _ (by simpa using ha'),
          List.find?_cons_of_pos _ (by simpa using ha')]
      · rw [List.find?_cons_of_neg _ (by simpa using ha'),
          List.find?_cons_of_neg _ (by simpa using ha')]
        exact ih

theorem find?_append_eq (l₁ l₂ : List α) (p : α → Bool) :
    (l₁ ++ l₂).find? p = ((l₁.find? p).map some).getD (l₂.find? p) := by
  induction l₁ with
  | nil => simp
  | cons a t ih =>
    by_cases ha : p a
    · simp [List.find?_cons, ha]
    · simp [List.find?_cons, ha, ih]

theorem dictGet_dictSet_self (l : List (String × α)) (k : String) (v : α) :
    dictGet (dictSet l k v) k = some v := by
  unfold dictGet dictSet
  split
  · rename_i h
    rw [find?_update_self l k v h]
    rfl
  · rename_i h
    have hnone : l.find? (fun p => decide (p.1 = k)) = none := by
      rw [List.find?_eq_none]
      intro p hp
      simp only [decide_eq_true_eq]
      intro hpk
      exact h (List.any_eq_true.mpr ⟨p, hp, by simpa using hpk⟩)
    rw [find?_append_eq, hnone]
    simp

theorem dictGet_dictSet_other (l : List (String × α)) (k k' : String) (v : α)
    (hne : k' ≠ k) : dictGet (dictSet l k v) k' = dictGet l k' := by
  unfold dictGet dictSet
  split
  · rw [find?_update_other l k k' v (fun hc => hne hc.symm)]
  · rw [find?_append_eq]
    cases hfind : l.find? (fun p => decide (p.1 = k')) with
    | none => simp [Ne.symm hne]
    | some p0 => simp

theorem any_key_eq_decide_mem (l : List (String × α)) (k : String) :
    l.any (fun p => p.1 = k) = decide (k ∈ l.map Prod.fst) := by
  by_cases hm : k ∈ l.map Prod.fst
  · rw [decide_eq_true hm]
    obtain ⟨p, hp, hpk⟩ := List.mem_map.mp hm
    exact List.any_eq_true.mpr ⟨p, hp, by simpa using hpk⟩
  · rw [decide_eq_false hm]
    rw [List.any_eq_false]
    intro p hp
    simp only [decide_eq_true_eq]
    intro hpk
    exact hm (List.mem_map.mpr ⟨p, hp, hpk⟩)

/-! ### Registry state lemmas -/

theorem names_mono (c : RegistryCall) (s : RegState) (n : String)
    (hmem : n ∈ names s) : n ∈ names (applyCall s c) := by
  cases c with
  | register m hd i =>
    show n ∈ (dictSet s.model_info m i).map Prod.fst
    exact (mem_dictSet_map_fst _ _ _ _).mpr (Or.inl hmem)
  | getModel m => exact hmem
  | listModels => exact hmem
  | predict m r => exact hmem

theorem mem_names_foldl (cs : List RegistryCall) (s : RegState) (n : String) :
    n ∈ names (cs.foldl applyCall s) ↔
      n ∈ names s ∨ ∃ c ∈ cs, registersName c n := by
  induction cs generalizing s with
  | nil => simp
  | cons c t ih =>
    rw [List.foldl_cons, ih]
    have hstep : n ∈ names (applyCall s c) ↔ n ∈ names s ∨ registersName c n := by
      cases c with
      | register m hd i =>
        show n ∈ (dictSet s.model_info m i).map Prod.fst ↔ _
        rw [mem_dictSet_map_fst]
        unfold registersName
        exact or_congr Iff.rfl eq_comm
      | getModel m => simp [registersName, applyCall]
      | listModels => simp [registersName, applyCall]
      | predict m r => simp [registersName, applyCall]
    rw [hstep]
    simp only [List.mem_cons]
    constructor
    · rintro ((hs | hr) | ⟨c0, hc0, hreg⟩)
      · exact Or.inl hs
      · exact Or.inr ⟨c, Or.inl rfl, hr⟩
      · exact Or.inr ⟨c0, Or.inr hc0, hreg⟩
    · rintro (hs | ⟨c0, (rfl | hc0), hreg⟩)
      · exact Or.inl (Or.inl hs)
      · exact Or.inl (Or.inr hreg)
      · exact Or.inr ⟨c0, hc0, hreg⟩

/-- One step of the first-registration-order bookkeeping used to state the
insertion-order property: a `register` records its name the first time it is
seen, every other call records nothing. -/
def registerStep (acc : List String) (c : RegistryCall) : List String :=
  match c with
  | .register m _ _ => if m ∈ acc then acc else acc ++ [m]
  | _ => acc

/-- The registered names a call sequence produces, in first-registration
order. -/
def firstSeenNames (cs : List RegistryCall) : List String :=
  cs.foldl registerStep []

theorem names_foldl_eq (cs : List RegistryCall) (s : RegState)
    (acc : List String) (h : names s = acc) :
    names (cs.foldl applyCall s) = cs.foldl registerStep acc := by
  induction cs generalizing s acc with
  | nil => exact h
  | cons c t ih =>
    rw [List.foldl_cons, List.foldl_cons]
    apply ih
    cases c with
    | register m hd i =>
      show (dictSet s.model_info m i).map Prod.fst = registerStep acc (.register m hd i)
      rw [dictSet_map_fst, any_key_eq_decide_mem]
      subst h
      unfold registerStep names
      by_cases hm : m ∈ s.model_info.map Prod.fst
      · simp [hm]
      · simp [hm]
    | getModel m => exact h
    | listModels => exact h
    | predict m r => exact h

theorem list_models_map_fst (s : RegState) :
    (list_models s).map Prod.fst = names s := by
  unfold list_models names
  rw [List.map_map]
  rfl

theorem firstSeen_step_nodup (acc : List String) (c : RegistryCall)
    (h : acc.Nodup) : (registerStep acc c).Nodup := by
  cases c with
  | register m hd i =>
    unfold registerStep
    by_cases hm : m ∈ acc
    · simpa [hm] using h
    · simp only [hm, if_false]
      simpa [List.nodup_append, hm] using h
  | getModel m => exact h
  | listModels => exact h
  | predict m r => exact h

theorem firstSeen_foldl_nodup (cs : List RegistryCall) (acc : List String)
    (h : acc.Nodup) : (cs.foldl registerStep acc).Nodup := by
  induction cs generalizing acc with
  | nil => exact h
  | cons c t ih => exact ih _ (firstSeen_step_nodup acc c h)

/-! ### Claim theorems — registry -/

/-- C1 counterexample: registering an already-registered name does not fail
with `AlreadyRegistered` — `register_model` has no error path at all — and it
does not leave the existing deployment untouched: after registering `"m"` with
handle 1 / metadata 10 and registering `"m"` again with handle 2 / metadata 20,
the stored handle and metadata are the new values 2 and 20, not the old ones. -/
theorem register_duplicate_overwrites_cex :
    dictGet (register_model initState "m" 1 10).model_info "m" = some 10 ∧
    dictGet (register_model (register_model initState "m" 1 10) "m" 2 20).model_info "m"
      = some 20 ∧
    dictGet (register_model (register_model initState "m" 1 10) "m" 2 20).models "m"
      = some 2 := by
  refine ⟨rfl, rfl, rfl⟩

/-- C1 (amended): `register_model` never fails; registering a name — whether or
not it is already present — succeeds and stores the supplied handle and
metadata under that name, silently replacing any previous registration. -/
theorem register_model_overwrites (s : RegState) (n : String) (hd : Handle)
    (i : Info) :
    dictGet (register_model s n hd i).models n = some hd ∧
    dictGet (register_model s n hd i).model_info n = some i :=
  ⟨dictGet_dictSet_self _ _ _, dictGet_dictSet_self _ _ _⟩

/-- C2: `predict` on an unregistered name raises
`ValueError("Model {name} not found")`, never invokes any handle (the outcome
is the same for every handle behaviour `hf`/`hg`), leaves the registry state
unchanged, and the `/predict` endpoint maps the `ValueError` to HTTP 404. -/
theorem predict_unknown_not_found
    (hf hg : Handle → Req → Except PyErr Resp) (s : RegState) (name : String)
    (req : Req) (habs : get_model s name = none) :
    predictReg hf s name req =
      .error (.valueError ("Model " ++ name ++ " not found")) ∧
    predictReg hf s name req = predictReg hg s name req ∧
    applyCall s (.predict name req) = s ∧
    predictEndpoint hf s name req =
      .error ⟨404, "Model " ++ name ++ " not found"⟩ := by
  have h1 : predictReg hf s name req =
      .error (.valueError ("Model " ++ name ++ " not found")) := by
    unfold predictReg
    rw [habs]
  have h2 : predictReg hg s name req =
      .error (.valueError ("Model " ++ name ++ " not found")) := by
    unfold predictReg
    rw [habs]
  refine ⟨h1, h1.trans h2.symm, rfl, ?_⟩
  unfold predictEndpoint
  rw [h1]

def handleZero : Handle → Req → Except PyErr Resp := fun _ _ => .ok 0

def handleOne : Handle → Req → Except PyErr Resp := fun _ _ => .ok 1

/-- C2 witness: dispatching `"ghost"` against the fresh registry yields
HTTP 404 with the not-found message. -/
theorem predict_unknown_not_found_witness :
    predictEndpoint handleZero initState "ghost" 0 =
      .error ⟨404, "Model " ++ "ghost" ++ " not found"⟩ :=
  (predict_unknown_not_found handleZero handleOne initState "ghost" 0 rfl).2.2.2

/-- C3 counterexample: no operation of `ModelRegistry` (its full method set is
`register_model`, `get_model`, `list_models`, `predict`) ever removes a
registered name — so the deregister operation the claim describes does not
exist in the code. -/
theorem no_deregister_cex :
    (∃ (c : RegistryCall) (s : RegState) (n : String),
        n ∈ names s ∧ n ∉ names (applyCall s c)) = False := by
  apply eq_false
  rintro ⟨c, s, n, hmem, hout⟩
  exact hout (names_mono c s n hmem)

/-- C3 (amended): the registry offers no deregister operation; every registry
operation preserves every registered name, so once registered a deployment
persists for the life of the registry. -/
theorem registered_names_persist (c : RegistryCall) (s : RegState) (n : String)
    (hmem : n ∈ names s) : n ∈ names (applyCall s c) :=
  names_mono c s n hmem

def s_m : RegState := register_model initState "m" 1 10

/-- C3 witness: with `"m"` registered, a further call (here `list_models`)
still has `"m"` registered. -/
theorem registered_names_persist_witness :
    "m" ∈ names (applyCall s_m .listModels) :=
  registered_names_persist .listModels s_m "m" (by decide)

/-- C5: against any reachable registry state, `get_model` and `list_models`
mutate nothing and always succeed; `list_models` of the fresh registry is
empty, and in general it has exactly one entry per registered model (the name
column has no duplicates), listed in first-registration (insertion) order. -/
theorem get_list_read_only_ordered (cs : List RegistryCall) :
    applyCall (runScript cs) .listModels = runScript cs ∧
    (∀ n, applyCall (runScript cs) (.getModel n) = runScript cs) ∧
    list_models initState = [] ∧
    (list_models (runScript cs)).map Prod.fst = firstSeenNames cs ∧
    ((list_models (runScript cs)).map Prod.fst).Nodup := by
  refine ⟨rfl, fun n => rfl, rfl, ?_, ?_⟩
  · rw [list_models_map_fst]
    exact names_foldl_eq cs initState [] rfl
  · rw [list_models_map_fst]
    unfold runScript
    rw [names_foldl_eq cs initState [] rfl]
    exact firstSeen_foldl_nodup cs [] List.nodup_nil

/-- C6: for every finite call sequence run against a fresh registry, a name is
live (present in the registry tables) afterwards exactly when some `register`
call for it occurs in the sequence. Since no registry operation removes a name
(C3) and every `register` succeeds, this is precisely the set of names whose
last successful register is not followed by a successful deregister. -/
theorem registry_live_set (cs : List RegistryCall) (n : String) :
    n ∈ names (runScript cs) ↔ ∃ c ∈ cs, registersName c n := by
  unfold runScript
  rw [mem_names_foldl]
  simp [names, initState]

/-- C9: every reachable registry state keeps the key column of `self.models`
identical (same keys, same order) to the key column of `self.model_info`, so a
model appears in `list_models` exactly when `predict` can resolve it. -/
theorem registry_tables_aligned (cs : List RegistryCall) :
    (runScript cs).models.map Prod.fst = (runScript cs).model_info.map Prod.fst := by
  unfold runScript
  have hkey : ∀ (t : List RegistryCall) (s : RegState),
      s.models.map Prod.fst = s.model_info.map Prod.fst →
      (t.foldl applyCall s).models.map Prod.fst =
        (t.foldl applyCall s).model_info.map Prod.fst := by
    intro t
    induction t with
    | nil => exact fun s h => h
    | cons c t ih =>
      intro s h
      rw [List.foldl_cons]
      apply ih
      cases c with
      | register m hd i =>
        show (dictSet s.models m hd).map Prod.fst =
          (dictSet s.model_info m i).map Prod.fst
        rw [dictSet_map_fst, dictSet_map_fst, any_key_eq_decide_mem,
          any_key_eq_decide_mem, h]
      | getModel m => exact h
      | listModels => exact h
      | predict m r => exact h
  exact hkey cs initState rfl

/-! ### Configuration (src/src/config/ray_config.py) -/

/-- `AutoscalingConfig` (lines 7-13): its pydantic `Field` bounds are
`min_replicas ≥ 1`, `max_replicas ≥ 1`,
`target_num_ongoing_requests_per_replica ≥ 1`, `upscale_delay_s ≥ 0`,
`downscale_delay_s ≥ 0`. The delays are floats, embedded as rationals. -/
structure AutoscalingConfig where
  min_replicas : Int
  max_replicas : Int
  target_num_ongoing_requests_per_replica : Int
  upscale_delay_s : ℚ
  downscale_delay_s : ℚ
deriving DecidableEq

/-- Pydantic validation of `AutoscalingConfig`: the conjunction of its
per-field `ge` bounds — nothing else. There is no cross-field constraint. -/
def AutoscalingConfig.isAccepted (c : AutoscalingConfig) : Bool :=
  decide (1 ≤ c.min_replicas) && decide (1 ≤ c.max_replicas) &&
  decide (1 ≤ c.target_num_ongoing_requests_per_replica) &&
  decide (0 ≤ c.upscale_delay_s) && decide (0 ≤ c.downscale_delay_s)

/-- `DeploymentConfig` (lines 16-27): `num_replicas` optional with `ge=1`,
nested optional `AutoscalingConfig`, `health_check_period_s ≥ 1`,
`health_check_timeout_s ≥ 1`, `graceful_shutdown_timeout_s ≥ 0`,
`graceful_shutdown_wait_loop_s ≥ 0`. (`ray_actor_options` is an opaque dict
with no constraint and is omitted.) -/
structure DeploymentConfig where
  name : String
  num_replicas : Option Int
  autoscaling_config : Option AutoscalingConfig
  health_check_period_s : ℚ
  health_check_timeout_s : ℚ
  graceful_shutdown_timeout_s : ℚ
  graceful_shutdown_wait_loop_s : ℚ
deriving DecidableEq

/-- Pydantic validation of `DeploymentConfig`: per-field `ge` bounds, the
optional fields validated only when present. -/
def DeploymentConfig.isAccepted (c : DeploymentConfig) : Bool :=
  (match c.num_replicas with
   | none => true
   | some n => decide (1 ≤ n)) &&
  (match c.autoscaling_config with
   | none => true
   | some a => a.isAccepted) &&
  decide (1 ≤ c.health_check_period_s) &&
  decide (1 ≤ c.health_check_timeout_s) &&
  decide (0 ≤ c.graceful_shutdown_timeout_s) &&
  decide (0 ≤ c.graceful_shutdown_wait_loop_s)

/-- C4 counterexample: validation accepts an `AutoscalingConfig` with
`min_replicas = 5 > max_replicas = 1` (no cross-field check) and a
`DeploymentConfig` whose `graceful_shutdown_timeout_s` is 0 (numeric but not
positive); neither is rejected with a `ConfigError` — and `register_model`
does not take a configuration at all, so nothing is validated at register
time. -/
theorem config_validation_cex :
    AutoscalingConfig.isAccepted ⟨5, 1, 10, 3, 30⟩ = true ∧
    (⟨5, 1, 10, 3, 30⟩ : AutoscalingConfig).max_replicas <
      (⟨5, 1, 10, 3, 30⟩ : AutoscalingConfig).min_replicas ∧
    DeploymentConfig.isAccepted ⟨"m", none, none, 10, 30, 0, 2⟩ = true := by
  refine ⟨by decide, by decide, by decide⟩

/-- C4 (amended): configuration validation is exactly the per-field pydantic
bounds — replica counts and load target at least 1 (`num_replicas` only when
supplied, here phrased via `getD`), health-check period and timeout at least
1, both shutdown timings and both scaling delays at least 0. It enforces no
`max_replicas ≥ min_replicas` relation and does not require the delay and
shutdown fields to be strictly positive, and the registry performs no config
validation at register time. -/
theorem config_validation_exact (a : AutoscalingConfig) (d : DeploymentConfig) :
    (AutoscalingConfig.isAccepted a = true ↔
      (1 ≤ a.min_replicas ∧ 1 ≤ a.max_replicas ∧
       1 ≤ a.target_num_ongoing_requests_per_replica ∧
       0 ≤ a.upscale_delay_s ∧ 0 ≤ a.downscale_delay_s)) ∧
    (DeploymentConfig.isAccepted d = true ↔
      (1 ≤ d.num_replicas.getD 1 ∧
       AutoscalingConfig.isAccepted (d.autoscaling_config.getD ⟨1, 1, 1, 0, 0⟩) = true ∧
       1 ≤ d.health_check_period_s ∧ 1 ≤ d.health_check_timeout_s ∧
       0 ≤ d.graceful_shutdown_timeout_s ∧
       0 ≤ d.graceful_shutdown_wait_loop_s)) := by
  constructor
  · unfold AutoscalingConfig.isAccepted
    simp [and_assoc]
  · obtain ⟨nm, nr, ac, hp, ht, gt, gw⟩ := d
    unfold DeploymentConfig.isAccepted
    cases nr with
    | none =>
      cases ac with
      | none => simp [AutoscalingConfig.isAccepted, and_assoc]
      | some a0 => simp [and_assoc]
    | some n =>
      cases ac with
      | none => simp [AutoscalingConfig.isAccepted, and_assoc]
      | some a0 => simp [and_assoc]

/-! ### GET /ray/status (src/src/api/endpoints/inference.py lines 93-140) -/

abbrev Resources := List (String × ℚ)

/-- Per-deployment record surfaced by `serve.list_deployments()`. -/
structure DeploymentStatusInfo where
  name : String
  status : String
  num_replicas : Int
deriving DecidableEq

/-- Oracle for the Ray runtime calls the endpoint makes: each call either
returns a value or raises an exception carrying a message. -/
structure RayRuntime where
  is_initialized : Except String Bool
  cluster_resources : Except String Resources
  available_resources : Except String Resources
  list_deployments : Except String (List DeploymentStatusInfo)

/-- The JSON payload shapes the endpoint returns. -/
inductive StatusPayload where
  | notInitialized
  | running (total available : Resources) (serve_status : String)
      (deployments : List (String × String × Int))
  | errorPayload (error : String)
deriving DecidableEq

/-- Body of `ray_status` (lines 96-134) in the exception monad: a raise in
`ray.is_initialized`, `ray.cluster_resources` or `ray.available_resources`
propagates; the inner `try/except Exception: pass` around
`serve.list_deployments` is absorbed locally, leaving `serve_status`
"not_started" with an empty deployment list. -/
def rayStatusBody (rt : RayRuntime) : Except String StatusPayload := do
  let init ← rt.is_initialized
  if !init then
    return .notInitialized
  let resources ← rt.cluster_resources
  let available ← rt.available_resources
  let sd : String × List (String × String × Int) :=
    match rt.list_deployments with
    | .ok info => ("running", info.map (fun dep => (dep.name, dep.status, dep.num_replicas)))
    | .error _ => ("not_started", [])
  return .running resources available sd.1 sd.2

/-- `ray_status` with its outer `try/except Exception` (lines 135-140): an
exception from the body becomes the payload
`{"status": "error", "error": str(e)}`. In the return type, `.ok` is a payload
returned to the caller and `.error` would be an exception escaping the
endpoint. -/
def ray_status (rt : RayRuntime) : Except String StatusPayload :=
  match rayStatusBody rt with
  | .ok p => .ok p
  | .error e => .ok (.errorPayload e)

/-- C8: for every behaviour of the Ray runtime — uninitialized, initialized
with or without Serve, or any call raising — `GET /ray/status` returns a
structured payload and never lets an exception escape; a failure inside the
body surfaces as the error payload carrying the failure message, in
particular when `ray.is_initialized` itself raises. -/
theorem ray_status_never_throws (rt : RayRuntime) :
    (∃ p, ray_status rt = .ok p) ∧
    (∀ e, rayStatusBody rt = .error e → ray_status rt = .ok (.errorPayload e)) ∧
    (∀ e, rt.is_initialized = .error e → ray_status rt = .ok (.errorPayload e)) := by
  refine ⟨?_, ?_, ?_⟩
  · unfold ray_status
    cases rayStatusBody rt with
    | ok p => exact ⟨p, rfl⟩
    | error e => exact ⟨.errorPayload e, rfl⟩
  · intro e he
    unfold ray_status
    rw [he]
  · intro e he
    unfold ray_status rayStatusBody
    rw [he]
    rfl

def rtBoom : RayRuntime := ⟨.error "boom", .ok [], .ok [], .ok []⟩

/-- C8 witness: a runtime whose `ray.is_initialized` raises "boom" gets the
error payload with that message, not an exception. -/
theorem ray_status_never_throws_witness :
    ray_status rtBoom = .ok (.errorPayload "boom") :=
  (ray_status_never_throws rtBoom).2.2 "boom" rfl

/-! ### Replica pool (spec section 4.2; no pool code exists under src/ — the
Ray Serve runtime provides replica management, so `candidates`/`select` are
modelled from the spec) -/

/-- Modelled from the spec: the health states of a Replica (spec section 4.3).
The repository contains no replica-pool code of its own. -/
inductive HealthState where
  | probing
  | healthy
  | unhealthy
  | evicted
  | draining
deriving DecidableEq

/-- Modelled from the spec: a Replica record (spec section 3) — in-flight
request count, creation timestamp, health state. -/
structure Replica where
  id : Nat
  inflight : Nat
  created_ts : Nat
  state : HealthState
deriving DecidableEq

/-- Modelled from the spec: `candidates()` (spec section 4.2) — the replicas
whose health state is `healthy`. -/
def candidates (pool : List Replica) : List Replica :=
  pool.filter (fun r => r.state = HealthState.healthy)

inductive PoolError where
  | serviceUnavailable
deriving DecidableEq

/-- Modelled from the spec: the strict serve-before order of `select()` —
strictly lower in-flight count, or equal in-flight count and strictly earlier
creation timestamp. -/
def lessLoaded (a b : Replica) : Bool :=
  decide (a.inflight < b.inflight) ||
  (decide (a.inflight = b.inflight) && decide (a.created_ts < b.created_ts))

/-- Reflexive form of the serve-before order: `a` is served no later than
`b`. -/
def leKey (a b : Replica) : Prop :=
  a.inflight < b.inflight ∨
  (a.inflight = b.inflight ∧ a.created_ts ≤ b.created_ts)

/-- Modelled from the spec: `select()` (spec section 4.2) — fails with
`ServiceUnavailable` when there is no healthy candidate, otherwise picks the
least-loaded candidate, oldest first on ties. -/
def select (pool : List Replica) : Except PoolError Replica :=
  match candidates pool with
  | [] => .error .serviceUnavailable
  | c :: cs => .ok (cs.foldl (fun best r => if lessLoaded r best then r else best) c)

theorem leKey_refl (a : Replica) : leKey a a :=
  Or.inr ⟨rfl, le_refl _⟩

theorem leKey_trans (a b c : Replica) (hab : leKey a b) (hbc : leKey b c) :
    leKey a c := by
  unfold leKey at *
  omega

theorem lessLoaded_true_leKey (a b : Replica) (h : lessLoaded a b = true) :
    leKey a b := by
  unfold lessLoaded at h
  simp only [Bool.or_eq_true, Bool.and_eq_true, decide_eq_true_eq] at h
  unfold leKey
  omega

theorem lessLoaded_false_leKey (a b : Replica) (h : lessLoaded a b = false) :
    leKey b a := by
  unfold lessLoaded at h
  simp only [Bool.or_eq_false_iff, Bool.and_eq_false_iff, decide_eq_false_iff_not,
    not_lt] at h
  unfold leKey
  rcases h with ⟨h1, h2 | h2⟩
  · omega
  · omega

theorem pickBest_mem (c : Replica) (cs : List Replica) :
    cs.foldl (fun best r => if lessLoaded r best then r else best) c ∈ c :: cs := by
  induction cs generalizing c with
  | nil => simp
  | cons r t ih =>
    rw [List.foldl_cons]
    by_cases h : lessLoaded r c = true
    · rw [if_pos h]
      rcases List.mem_cons.mp (ih r) with h1 | h1
      · rw [h1]
        exact List.mem_cons.mpr (Or.inr (List.mem_cons_self r t))
      · exact List.mem_cons.mpr (Or.inr (List.mem_cons.mpr (Or.inr h1)))
    · rw [if_neg h]
      rcases List.mem_cons.mp (ih c) with h1 | h1
      · rw [h1]
        exact List.mem_cons_self c (r :: t)
      · exact List.mem_cons.mpr (Or.inr (List.mem_cons.mpr (Or.inr h1)))

theorem pickBest_le (cs : List Replica) (c : Replica) :
    ∀ x ∈ c :: cs,
      leKey (cs.foldl (fun best r => if lessLoaded r best then r else best) c) x := by
  induction cs generalizing c with
  | nil =>
    intro x hx
    rw [List.foldl_nil]
    rcases List.mem_cons.mp hx with hx1 | hx'
    · rw [hx1]
      exact leKey_refl c
    · cases hx'
  | cons r t ih =>
    intro x hx
    rw [List.foldl_cons]
    by_cases h : lessLoaded r c = true
    · rw [if_pos h]
      have hrc : leKey r c := lessLoaded_true_leKey r c h
      rcases List.mem_cons.mp hx with hx1 | hx'
      · rw [hx1]
        exact leKey_trans _ _ _ (ih r r (List.mem_cons_self r t)) hrc
      · rcases List.mem_cons.mp hx' with hx2 | hx2
        · rw [hx2]
          exact ih r r (List.mem_cons_self r t)
        · exact ih r x (List.mem_cons.mpr (Or.inr hx2))
    · have hf : lessLoaded r c = false := by
        revert h
        cases lessLoaded r c <;> simp
      rw [if_neg h]
      have hcr : leKey c r := lessLoaded_false_leKey r c hf
      rcases List.mem_cons.mp hx with hx1 | hx'
      · rw [hx1]
        exact ih c c (List.mem_cons_self c t)
      · rcases List.mem_cons.mp hx' with hx2 | hx2
        · rw [hx2]
          exact leKey_trans _ _ _ (ih c c (List.mem_cons_self c t)) hcr
        · exact ih c x (List.mem_cons.mpr (Or.inr hx2))

/-- C7: for a fixed pool state, `select` is a pure function (hence
deterministic); it fails with `ServiceUnavailable` exactly when the set of
healthy candidates is empty, and on success returns a healthy candidate that
is least-loaded, oldest first on ties: no other candidate has a strictly
lower in-flight count, nor an equal in-flight count with a strictly earlier
creation timestamp. -/
theorem select_deterministic_least_loaded (pool : List Replica) :
    (select pool = .error .serviceUnavailable ↔ candidates pool = []) ∧
    (∀ r, select pool = .ok r →
      r ∈ candidates pool ∧ ∀ x ∈ candidates pool, leKey r x) := by
  unfold select
  cases hc : candidates pool with
  | nil =>
    refine ⟨⟨fun _ => rfl, fun _ => rfl⟩, ?_⟩
    intro r hr
    cases hr
  | cons c cs =>
    constructor
    · constructor
      · intro h
        cases h
      · intro h
        cases h
    · intro r hr
      injection hr with hfold
      subst hfold
      refine ⟨?_, ?_⟩
      · exact pickBest_mem c cs
      · exact pickBest_le cs c

def replicaSick : Replica := ⟨1, 0, 1, .unhealthy⟩

def replicaBusy : Replica := ⟨2, 2, 5, .healthy⟩

def replicaOld : Replica := ⟨3, 2, 3, .healthy⟩

def poolC : List Replica := [replicaSick, replicaBusy, replicaOld]

/-- C7 witness: in a pool with one unhealthy replica and two healthy ones
tied on in-flight count, `select` returns the older healthy one, which is a
candidate. -/
theorem select_deterministic_least_loaded_witness :
    replicaOld ∈ candidates poolC :=
  ((select_deterministic_least_loaded poolC).2 replicaOld rfl).1

/-! ### ResNet worker per-item preprocessing
(src/src/services/ray_serve.py, `ResNetModel.__call__`, lines 53-104) -/

abbrev Pixel := ℚ

/-- Lines 63-67: reshape a flat 150528-element array to `(224, 224, 3)` and
transpose HWC to CHW: the output element at `c * 50176 + h * 224 + w` is the
input element at `h * 672 + w * 3 + c`. -/
def reshapeTranspose (d : List Pixel) : List Pixel :=
  (List.range 3).flatMap (fun c =>
    (List.range 224).flatMap (fun h =>
      (List.range 224).map (fun w => d.getD (h * 672 + w * 3 + c) 0)))

/-- Lines 58-71: an item whose flattened length is exactly 150528 (224*224*3)
is reshaped from the submitted data; for any other length the code logs a
warning and substitutes the freshly drawn random image `rand`
(`np.random.rand(3, 224, 224)`) — it does not raise. -/
def itemImage (rand : List Pixel) (data : List Pixel) : List Pixel :=
  if data.length = 150528 then reshapeTranspose data else rand

/-- Line 74: the ImageNet channel means. -/
def imagenetMean : List ℚ := [485/1000, 456/1000, 406/1000]

/-- Line 75: the ImageNet channel standard deviations. -/
def imagenetStd : List ℚ := [229/1000, 224/1000, 225/1000]

/-- Line 78: per-channel ImageNet normalization of the CHW array; in flat
indexing the channel of index `idx` is `idx / 50176`. -/
def normalizeImg (img : List Pixel) : List Pixel :=
  img.mapIdx (fun idx x =>
    (x - imagenetMean.getD (idx / 50176) 0) / imagenetStd.getD (idx / 50176) 1)

/-- Lines 89-101: `torch.topk(probs, 5)` — indexed probabilities sorted by
descending probability, truncated to the top five. -/
def top5 (probs : List ℚ) : List (Nat × ℚ) :=
  ((probs.mapIdx (fun i p => (i, p))).mergeSort
    (fun a b => decide (b.2 ≤ a.2))).take 5

/-- One item of `ResNetModel.__call__`: build the image (lines 58-71),
normalize it (lines 73-78), run the opaque worker `model` (forward pass plus
softmax, lines 81-87) and return its top-5 (lines 89-101). Total: no input is
rejected. -/
def resnetItem (model : List Pixel → List ℚ) (rand : List Pixel)
    (data : List Pixel) : List (Nat × ℚ) :=
  top5 (model (normalizeImg (itemImage rand data)))

/-- C10: an item whose flattened length is not 150528 is not rejected — the
worker substitutes the random image for it, so the produced response is the
top-5 over the random image, is identical for any two wrong-sized inputs
(hence not a function of the submitted data), and still has the top-5 shape
(five entries whenever the class list has at least five). -/
theorem wrong_size_uses_random_image (model : List Pixel → List ℚ)
    (rand d d' : List Pixel) (hd : d.length ≠ 150528)
    (hd' : d'.length ≠ 150528) :
    itemImage rand d = rand ∧
    resnetItem model rand d = top5 (model (normalizeImg rand)) ∧
    resnetItem model rand d = resnetItem model rand d' ∧
    (resnetItem model rand d).length = min 5 (model (normalizeImg rand)).length := by
  have h1 : itemImage rand d = rand := by
    unfold itemImage
    rw [if_neg hd]
  have h1' : itemImage rand d' = rand := by
    unfold itemImage
    rw [if_neg hd']
  refine ⟨h1, ?_, ?_, ?_⟩
  · unfold resnetItem
    rw [h1]
  · unfold resnetItem
    rw [h1, h1']
  · unfold resnetItem top5
    rw [h1, List.length_take, List.length_mergeSort, List.length_mapIdx]

def modelW : List Pixel → List ℚ := fun _ => [1/2, 1/4, 1/8]

/-- C10 witness: the one-element item `[5]` has the wrong size, so the image
actually classified is the random image, untouched by the submitted data. -/
theorem wrong_size_uses_random_image_witness :
    itemImage [1, 2, 3] [5] = [1, 2, 3] :=
  (wrong_size_uses_random_image modelW [1, 2, 3] [5] [] (by decide)
    (by decide)).1
